import Mathlib

/-!
Verification of the student academic-records tracker (backend).

This file gives a shallow embedding of the parts of the code that the
claims are about:

* `scripts/import_academic_records.py` — the CSV import, modelled as a
  state machine over a database state holding academic terms, flushed
  subject rows, and pending (added-but-not-flushed) subject rows.  The
  SQLAlchemy session is created with `autoflush=False`: term inserts are
  explicitly flushed (so later queries see them), subject inserts are
  not flushed until a commit, and the loop commits every 100 groups and
  once at the end.
* `app/api/routes/analytics.py` — the GPA-trend, analytics-summary and
  cohort-statistics endpoints, as pure functions over a list-based
  database of student profiles, academic terms and subjects.
* `app/models/user.py` and `app/api/routes/auth.py` — the account
  lockout logic, as a small state machine over the user's
  `failed_login_attempts` / `locked_until` fields.

Numbers: Python floats and SQL decimals are modelled as exact rationals
(`ℚ`); Python's `round(x, 2)` is modelled as round-half-to-even at two
decimal places (`pyRound2`).  Time is modelled as minutes (`ℚ`).
-/

namespace StudentTracker

/-! ## Rounding: Python's `round` (banker's rounding) -/

/-- Python's builtin `round` to an integer: round half to even. -/
def pyRoundInt (q : ℚ) : ℤ :=
  let f : ℤ := ⌊q⌋
  let frac : ℚ := q - f
  if frac < 1/2 then f
  else if 1/2 < frac then f + 1
  else if f % 2 = 0 then f else f + 1

/-- Python's `round(q, 2)`: round half to even at two decimal places. -/
def pyRound2 (q : ℚ) : ℚ := (pyRoundInt (q * 100) : ℚ) / 100

/-! ## Data model of the import (`import_academic_records.py`) -/

/-- One row of the academic-records CSV
(`student_id, semester, subject_code, subject_name, credits, Total_marks, pass_fail`);
the grouping key `(student_id, semester)` is carried by `Group`. -/
structure CsvRow where
  subject_code : String
  subject_name : String
  credits : Int
  Total_marks : ℚ
  pass_fail : String
deriving DecidableEq, Repr

/-- One group of `df.groupby(['student_id', 'semester'])`: the key and the
group's rows in CSV order. -/
structure Group where
  student_id : Nat
  semester : Int
  rows : List CsvRow
deriving DecidableEq, Repr

/-- An `academic_terms` row.  `id` is the primary key (modelled as a
counter instead of a UUID; only identity and linkage matter). -/
structure Term where
  id : Nat
  user_id : Nat
  semester : Int
  year : Int
  gpa : ℚ
deriving DecidableEq, Repr

/-- A `subjects` row (the UUID primary key is omitted: the import never
reads it back). -/
structure SubjectRec where
  term_id : Nat
  subject_code : String
  subject_name : String
  credits : Int
  marks : ℚ
  grade : String
deriving DecidableEq, Repr

/-- The database state as seen by one import session.  `subjects` are the
rows visible to queries (committed or flushed); `pending` are subject
rows added to the session but not flushed (the session has
`autoflush=False` and subjects are never explicitly flushed, so queries
do not see them until a commit). Term inserts are flushed immediately
(`session.flush()` after `session.add(term)`), so `terms` holds only
query-visible rows. -/
structure DB where
  terms : List Term
  subjects : List SubjectRec
  pending : List SubjectRec
  nextId : Nat
deriving DecidableEq, Repr

/-- `grade_map = {'Pass': 'P', 'Fail': 'F'}; grade_map.get(pass_fail, 'P')`. -/
def gradeOf (pf : String) : String := if pf = "Fail" then "F" else "P"

/-- `total_marks = group['Total_marks'].mean()` followed by
`gpa = min(round(total_marks / 10, 2), 9.99)`. -/
def termGpa (marks : List ℚ) : ℚ :=
  let total_marks : ℚ := marks.sum / marks.length
  min (pyRound2 (total_marks / 10)) (999/100)

/-- `session.query(AcademicTerm).filter(user_id == …, semester == …, year == …).first()`. -/
def findTerm (terms : List Term) (uid : Nat) (sem year : Int) : Option Term :=
  terms.find? (fun t => t.user_id == uid && t.semester == sem && t.year == year)

/-- `session.query(Subject).filter(term_id == …, subject_code == …).first()`
(queries see only flushed rows). -/
def findSubject (subs : List SubjectRec) (tid : Nat) (code : String) : Option SubjectRec :=
  subs.find? (fun s => s.term_id == tid && s.subject_code == code)

/-- The `Subject(...)` constructed for one CSV row of a term. -/
def mkSubject (tid : Nat) (r : CsvRow) : SubjectRec :=
  { term_id := tid
    subject_code := r.subject_code
    subject_name := r.subject_name
    credits := r.credits
    marks := r.Total_marks
    grade := gradeOf r.pass_fail }

/-- The `for _, subject_row in group.iterrows()` loop: add each subject
whose `(term_id, subject_code)` is not already visible to queries.  New
rows go to `pending` (not flushed), so the existence check keeps looking
at the same flushed `subjects` throughout the loop. -/
def addSubjects (db : DB) (tid : Nat) (rows : List CsvRow) : DB :=
  rows.foldl
    (fun acc r =>
      match findSubject acc.subjects tid r.subject_code with
      | some _ => acc
      | none => { acc with pending := acc.pending ++ [mkSubject tid r] })
    db

/-- `session.commit()`: flush pending subject rows, making them visible. -/
def commitDB (db : DB) : DB :=
  { db with subjects := db.subjects ++ db.pending, pending := [] }

/-- The body of the group loop for one `(student_id, semester)` group with
a mapped user `uid`: find-or-create the term (create flushes, so the new
term is immediately query-visible), then add the group's subject rows. -/
def processGroup (db : DB) (uid : Nat) (g : Group) : DB :=
  let gpa := termGpa (g.rows.map (·.Total_marks))
  match findTerm db.terms uid g.semester 2024 with
  | some term => addSubjects db term.id g.rows
  | none =>
      let term : Term :=
        { id := db.nextId, user_id := uid, semester := g.semester, year := 2024, gpa := gpa }
      let db1 : DB := { db with terms := db.terms ++ [term], nextId := db.nextId + 1 }
      addSubjects db1 term.id g.rows

/-- The group loop of `import_academic_records`: `count` is
`processed_count`.  A group whose `student_id` is not in the mapping is
skipped (`continue`), which also skips that iteration's batch commit;
otherwise the group is processed and the session commits when
`processed_count % 100 == 0`. -/
def importGroups (userMap : Nat → Option Nat) : List Group → Nat → DB → DB
  | [], _, db => db
  | g :: gs, count, db =>
      let count1 := count + 1
      match userMap g.student_id with
      | none => importGroups userMap gs count1 db
      | some uid =>
          let db1 := processGroup db uid g
          let db2 := if count1 % 100 == 0 then commitDB db1 else db1
          importGroups userMap gs count1 db2

/-- `import_academic_records(session, csv_path, student_id_to_user)`:
process every `(student_id, semester)` group of the CSV, then the final
`session.commit()`. -/
def importAcademicRecords (userMap : Nat → Option Nat) (groups : List Group) (db : DB) : DB :=
  commitDB (importGroups userMap groups 0 db)

/-! ## Data model of the analytics routes (`analytics.py`) -/

/-- A `student_profiles` row (the fields the analytics routes read). -/
structure Profile where
  id : Nat
  user_id : Nat
  name : String
  branch : String
  semester : Int
deriving DecidableEq, Repr

/-- The tables read by the analytics routes.  List order models the
row order the database returns for an unordered query. -/
structure AnalyticsDB where
  profiles : List Profile
  terms : List Term
  subjects : List SubjectRec
deriving Repr

/-- Insert into a list sorted by `le`. -/
def insertLe (le : α → α → Bool) (a : α) : List α → List α
  | [] => [a]
  | b :: bs => if le a b then a :: b :: bs else b :: insertLe le a bs

/-- Insertion sort by `le`; models a SQL `ORDER BY` / Python `sorted`. -/
def sortLe (le : α → α → Bool) : List α → List α
  | [] => []
  | a :: as => insertLe le a (sortLe le as)

/-- The `ORDER BY year, semester` comparison on terms. -/
def termLe (a b : Term) : Bool :=
  a.year < b.year || (a.year == b.year && a.semester ≤ b.semester)

/-- `db.query(AcademicTerm).filter(AcademicTerm.user_id == …).all()`
(no ordering). -/
def userTerms (db : AnalyticsDB) (uid : Nat) : List Term :=
  db.terms.filter (fun t => t.user_id == uid)

/-- `sum(float(t.gpa) for t in terms) / len(terms)`. -/
def meanGpa (terms : List Term) : ℚ :=
  (terms.map (·.gpa)).sum / terms.length

/-- The trend classification shared by `get_gpa_trend` and
`get_student_analytics_summary`: when there are at least two terms,
compare `sum(terms[-2:]) / 2` with `sum(terms[:2]) / 2` against a
`0.3` margin; otherwise `"stable"`. -/
def trendOf (terms : List Term) : String :=
  if 2 ≤ terms.length then
    let recent_avg := ((terms.drop (terms.length - 2)).map (·.gpa)).sum / 2
    let earlier_avg := ((terms.take 2).map (·.gpa)).sum / 2
    if earlier_avg + 3/10 < recent_avg then "improving"
    else if recent_avg < earlier_avg - 3/10 then "declining"
    else "stable"
  else "stable"

/-- The `GPATrend` response (`student_id` omitted; data points are
`(semester, year, gpa, term_id)`). -/
structure GPATrendRes where
  data_points : List (Int × Int × ℚ × Nat)
  average_gpa : ℚ
  trend : String
deriving DecidableEq, Repr

/-- `GET /gpa-trend/{student_id}`: `none` models the 404 for a missing
student; a student with no terms gets the defensive empty result. -/
def getGpaTrend (db : AnalyticsDB) (sid : Nat) : Option GPATrendRes :=
  match db.profiles.find? (fun p => p.id == sid) with
  | none => none
  | some student =>
      let terms := sortLe termLe (userTerms db student.user_id)
      if terms.isEmpty then
        some { data_points := [], average_gpa := 0, trend := "stable" }
      else
        some
          { data_points := terms.map (fun t => (t.semester, t.year, t.gpa, t.id))
            average_gpa := meanGpa terms
            trend := trendOf terms }

/-- The subjects joined to a user's terms (`Subject JOIN AcademicTerm
ON …  WHERE AcademicTerm.user_id == …`). -/
def userSubjects (db : AnalyticsDB) (uid : Nat) : List SubjectRec :=
  db.subjects.filter (fun s => (userTerms db uid).any (fun t => t.id == s.term_id))

/-- The cohort query of the summary route: profiles sharing the
student's branch and semester. -/
def cohortOf (db : AnalyticsDB) (branch : String) (semester : Int) : List Profile :=
  db.profiles.filter (fun p => p.branch == branch && p.semester == semester)

/-- The per-member mean GPAs collected over a list of profiles; members
with no terms contribute nothing. -/
def memberGpas (db : AnalyticsDB) (members : List Profile) : List ℚ :=
  members.filterMap (fun p =>
    let ts := userTerms db p.user_id
    if ts.isEmpty then none else some (meanGpa ts))

/-- The percentile computation of `get_student_analytics_summary`:
`(better_count / len(cohort_gpas)) * 100` when the cohort GPA list is
non-empty and `overall_gpa > 0`, else `50.0`. -/
def percentileOf (cohortGpas : List ℚ) (overall : ℚ) : ℚ :=
  if cohortGpas ≠ [] ∧ 0 < overall then
    (((cohortGpas.filter (fun g => g < overall)).length : ℚ) / cohortGpas.length) * 100
  else 50

/-- The `StudentAnalyticsSummary` response (identity fields omitted). -/
structure SummaryRes where
  overall_gpa : ℚ
  total_credits : Int
  total_subjects : Nat
  gpa_trend : String
  performance_percentile : ℚ
deriving DecidableEq, Repr

/-- `GET /student/{student_id}/summary`: `none` models the 404 for a
missing student; a student with no terms gets the defensive default
summary. -/
def getSummary (db : AnalyticsDB) (sid : Nat) : Option SummaryRes :=
  match db.profiles.find? (fun p => p.id == sid) with
  | none => none
  | some student =>
      let terms := userTerms db student.user_id
      if terms.isEmpty then
        some
          { overall_gpa := 0, total_credits := 0, total_subjects := 0
            gpa_trend := "stable", performance_percentile := 50 }
      else
        let overall := meanGpa terms
        let subjectsOfUser := userSubjects db student.user_id
        let cohortGpas := memberGpas db (cohortOf db student.branch student.semester)
        some
          { overall_gpa := overall
            total_credits := (subjectsOfUser.map (·.credits)).sum
            total_subjects := subjectsOfUser.length
            gpa_trend := trendOf terms
            performance_percentile := percentileOf cohortGpas overall }

/-- `max` of a non-empty Python list (`0` for the empty list, unreached). -/
def listMax : List ℚ → ℚ
  | [] => 0
  | h :: t => t.foldl max h

/-- `min` of a non-empty Python list (`0` for the empty list, unreached). -/
def listMin : List ℚ → ℚ
  | [] => 0
  | h :: t => t.foldl min h

/-- The `CohortStats` response of `GET /cohort-stats` (the histogram's
five fixed buckets are separate fields). -/
structure CohortStatsRes where
  total_students : Nat
  average_gpa : ℚ
  median_gpa : ℚ
  top_gpa : ℚ
  bottom_gpa : ℚ
  dist_9_10 : Nat
  dist_8_89 : Nat
  dist_7_79 : Nat
  dist_6_69 : Nat
  dist_below_6 : Nat
deriving DecidableEq, Repr

/-- `GET /cohort-stats?branch=…&semester=…`: `none` models the two 404s
(no students in the cohort; no member has academic records). -/
def getCohortStats (db : AnalyticsDB) (branch : String) (semester : Int) :
    Option CohortStatsRes :=
  let students := cohortOf db branch semester
  if students.isEmpty then none
  else
    let gpas := memberGpas db students
    if gpas.isEmpty then none
    else
      let sorted_gpas := sortLe (fun a b => a ≤ b) gpas
      some
        { total_students := students.length
          average_gpa := gpas.sum / gpas.length
          median_gpa := sorted_gpas.getD (sorted_gpas.length / 2) 0
          top_gpa := listMax gpas
          bottom_gpa := listMin gpas
          dist_9_10 := (gpas.filter (fun g => 9 ≤ g)).length
          dist_8_89 := (gpas.filter (fun g => 8 ≤ g ∧ g < 9)).length
          dist_7_79 := (gpas.filter (fun g => 7 ≤ g ∧ g < 8)).length
          dist_6_69 := (gpas.filter (fun g => 6 ≤ g ∧ g < 7)).length
          dist_below_6 := (gpas.filter (fun g => g < 6)).length }

/-! ## Account lockout (`models/user.py`, `routes/auth.py`) -/

/-- The lockout-relevant fields of a `users` row.  Time is in minutes. -/
structure UserState where
  failed_login_attempts : Nat
  locked_until : Option ℚ
deriving DecidableEq, Repr

/-- `User.is_locked`: locked iff `locked_until` is set and in the future. -/
def isLocked (u : UserState) (now : ℚ) : Bool :=
  match u.locked_until with
  | some t => now < t
  | none => false

/-- `User.record_failed_login`: increment the counter; at 5 or more
failures, lock for 30 minutes from now. -/
def recordFailedLogin (u : UserState) (now : ℚ) : UserState :=
  let attempts := u.failed_login_attempts + 1
  if 5 ≤ attempts then { failed_login_attempts := attempts, locked_until := some (now + 30) }
  else { u with failed_login_attempts := attempts }

/-- `User.reset_failed_attempts`. -/
def resetFailedAttempts (_ : UserState) : UserState :=
  { failed_login_attempts := 0, locked_until := none }

/-- Outcome of the `login` route for an existing user: 403 while locked,
401 on a bad password, or a bearer token. -/
inductive LoginResult where
  | lockedOut
  | badCredentials
  | token
deriving DecidableEq, Repr

/-- The `login` route for an existing user: reject while locked (before
any password check), record a failure on a wrong password, reset the
counters and issue a token on a correct one. -/
def loginStep (u : UserState) (passwordOk : Bool) (now : ℚ) : UserState × LoginResult :=
  if isLocked u now then (u, .lockedOut)
  else if !passwordOk then (recordFailedLogin u now, .badCredentials)
  else (resetFailedAttempts u, .token)

/-- A freshly created account: no failures, not locked. -/
def freshUser : UserState := { failed_login_attempts := 0, locked_until := none }

/-- `n` consecutive failed login attempts (wrong password each time) at
the given times, earliest first. -/
def failedAttempts : List ℚ → UserState → UserState
  | [], u => u
  | t :: ts, u => failedAttempts ts (loginStep u false t).1

/-! ## Definitions taken from the specification's wording -/

/-- Modelled from the spec: the trend label described in §4.1 —
"compare mean of the last two terms' GPA to mean of the first two;
improving if delta > 0.3, declining if delta < −0.3, else stable"
(with fewer than two terms there is no delta and the label is stable). -/
def specTrendLabel (gpas : List ℚ) : String :=
  if 2 ≤ gpas.length then
    let delta := (gpas.drop (gpas.length - 2)).sum / 2 - (gpas.take 2).sum / 2
    if 3/10 < delta then "improving"
    else if delta < -(3/10) then "declining"
    else "stable"
  else "stable"

/-- Modelled from the spec: "compute term GPA from mean marks (marks/10,
capped at 9.99)", i.e. `min(round(mean / 10, 2), 9.99)`. -/
def specTermGpa (marks : List ℚ) : ℚ :=
  min (pyRound2 (marks.sum / marks.length / 10)) (999/100)

/-! ## Infrastructure lemmas -/

/-- The subject rows a group adds to `pending`: those of its CSV rows
whose `(term_id, subject_code)` is not yet query-visible. -/
def newSubs (subs : List SubjectRec) (tid : Nat) (rows : List CsvRow) : List SubjectRec :=
  (rows.filter (fun r => (findSubject subs tid r.subject_code).isNone)).map (mkSubject tid)

theorem addSubjects_eq (db : DB) (tid : Nat) (rows : List CsvRow) :
    addSubjects db tid rows =
      { db with pending := db.pending ++ newSubs db.subjects tid rows } := by
  induction rows generalizing db with
  | nil => simp [addSubjects, newSubs]
  | cons r rs ih =>
      simp only [addSubjects, List.foldl_cons] at *
      cases h : findSubject db.subjects tid r.subject_code with
      | some s =>
          rw [ih]
          simp [newSubs, List.filter_cons, h]
      | none =>
          rw [ih]
          simp [newSubs, List.filter_cons, h, List.append_assoc]

theorem commitDB_pending (db : DB) : (commitDB db).pending = [] := rfl

theorem commitDB_of_pending_nil (db : DB) (h : db.pending = []) : commitDB db = db := by
  cases db
  simp_all [commitDB]

theorem insertLe_length (le : α → α → Bool) (a : α) (l : List α) :
    (insertLe le a l).length = l.length + 1 := by
  induction l with
  | nil => rfl
  | cons b bs ih =>
      simp only [insertLe]
      split <;> simp [ih]

theorem sortLe_length (le : α → α → Bool) (l : List α) :
    (sortLe le l).length = l.length := by
  induction l with
  | nil => rfl
  | cons a as ih => simp [sortLe, insertLe_length, ih]

theorem insertLe_perm (le : α → α → Bool) (a : α) (l : List α) :
    (insertLe le a l).Perm (a :: l) := by
  induction l with
  | nil => exact List.Perm.refl _
  | cons b bs ih =>
      simp only [insertLe]
      split
      · exact List.Perm.refl _
      · exact (List.Perm.cons b ih).trans (List.Perm.swap a b bs)

theorem sortLe_perm (le : α → α → Bool) (l : List α) :
    (sortLe le l).Perm l := by
  induction l with
  | nil => exact List.Perm.refl _
  | cons a as ih => exact (insertLe_perm le a _).trans (List.Perm.cons a ih)

theorem sortLe_nil (le : α → α → Bool) : sortLe le ([] : List α) = [] := rfl

theorem le_foldl_max (l : List ℚ) : ∀ a x, (x ≤ a ∨ x ∈ l) → x ≤ l.foldl max a := by
  induction l with
  | nil => intro a x h; simpa using h
  | cons b bs ih =>
      intro a x h
      simp only [List.foldl_cons]
      rcases h with h | h
      · exact ih _ _ (Or.inl (h.trans (le_max_left a b)))
      · rcases List.mem_cons.mp h with rfl | h
        · exact ih _ _ (Or.inl (le_max_right a x))
        · exact ih _ _ (Or.inr h)

theorem foldl_max_mem (l : List ℚ) : ∀ a, l.foldl max a ∈ a :: l := by
  induction l with
  | nil => intro a; simp
  | cons b bs ih =>
      intro a
      simp only [List.foldl_cons]
      rcases List.mem_cons.mp (ih (max a b)) with h | h
      · rcases max_choice a b with h' | h' <;> rw [h] <;> simp [h']
      · simp [List.mem_cons.mpr (Or.inr h)]

theorem foldl_min_le (l : List ℚ) : ∀ a x, (a ≤ x ∨ x ∈ l) → l.foldl min a ≤ x := by
  induction l with
  | nil => intro a x h; simpa using h
  | cons b bs ih =>
      intro a x h
      simp only [List.foldl_cons]
      rcases h with h | h
      · exact ih _ _ (Or.inl ((min_le_left a b).trans h))
      · rcases List.mem_cons.mp h with rfl | h
        · exact ih _ _ (Or.inl (min_le_right a x))
        · exact ih _ _ (Or.inr h)

theorem foldl_min_mem (l : List ℚ) : ∀ a, l.foldl min a ∈ a :: l := by
  induction l with
  | nil => intro a; simp
  | cons b bs ih =>
      intro a
      simp only [List.foldl_cons]
      rcases List.mem_cons.mp (ih (min a b)) with h | h
      · rcases min_choice a b with h' | h' <;> rw [h] <;> simp [h']
      · simp [List.mem_cons.mpr (Or.inr h)]

theorem listMax_spec (l : List ℚ) (hl : l ≠ []) :
    listMax l ∈ l ∧ ∀ x ∈ l, x ≤ listMax l := by
  match l, hl with
  | a :: t, _ =>
      refine ⟨foldl_max_mem t a, ?_⟩
      intro x hx
      rcases List.mem_cons.mp hx with rfl | hx
      · exact le_foldl_max t x x (Or.inl le_rfl)
      · exact le_foldl_max t a x (Or.inr hx)

theorem listMin_spec (l : List ℚ) (hl : l ≠ []) :
    listMin l ∈ l ∧ ∀ x ∈ l, listMin l ≤ x := by
  match l, hl with
  | a :: t, _ =>
      refine ⟨foldl_min_mem t a, ?_⟩
      intro x hx
      rcases List.mem_cons.mp hx with rfl | hx
      · exact foldl_min_le t x x (Or.inl le_rfl)
      · exact foldl_min_le t a x (Or.inr hx)

/-- Helper: the code's trend classification agrees with the spec's
delta-based formulation on any term list. -/
theorem trendOf_eq_spec (terms : List Term) :
    trendOf terms = specTrendLabel (terms.map (·.gpa)) := by
  simp only [trendOf, specTrendLabel, List.length_map, List.map_drop, List.map_take]
  by_cases hlen : 2 ≤ terms.length
  · simp only [if_pos hlen]
    split_ifs <;> first | rfl | (exfalso; linarith)
  · simp [hlen]

/-- Helper: with exactly one or two terms the code's trend is stable. -/
theorem trendOf_short (terms : List Term)
    (h : terms.length = 1 ∨ terms.length = 2) : trendOf terms = "stable" := by
  rcases h with h | h
  · simp [trendOf, h]
  · match terms, h with
    | [a, b], _ =>
        simp only [trendOf, List.length_cons, List.length_nil]
        norm_num

/-! ## Claim theorems -/

/-- C1: for every academic-records group whose user has no existing term
for `(user, semester, 2024)`, the import writes a term whose GPA is
`min(round(mean(Total_marks) / 10, 2), 9.99)` — the spec's formula — and
a group with mean marks 82.0 (here marks 80 and 84) yields GPA 8.2. -/
theorem import_term_gpa_formula :
    (∀ marks : List ℚ, termGpa marks = specTermGpa marks) ∧
    (∀ (db : DB) (uid : Nat) (g : Group),
        findTerm db.terms uid g.semester 2024 = none →
        ∃ t ∈ (processGroup db uid g).terms,
          t.user_id = uid ∧ t.semester = g.semester ∧ t.year = 2024 ∧
          t.gpa = specTermGpa (g.rows.map (·.Total_marks))) ∧
    termGpa [80, 84] = 41/5 := by
  refine ⟨fun marks => rfl, ?_, by with_unfolding_all decide⟩
  intro db uid g h
  refine ⟨{ id := db.nextId, user_id := uid, semester := g.semester, year := 2024,
            gpa := termGpa (g.rows.map (·.Total_marks)) }, ?_, rfl, rfl, rfl, rfl⟩
  simp only [processGroup, h]
  rw [addSubjects_eq]
  simp

/-- C1 witness: instantiation of the middle conjunct on an empty
database and a one-row group. -/
theorem import_term_gpa_formula_witness :
    findTerm (DB.mk [] [] [] 0).terms 42 1 2024 = none ∧
    ∃ t ∈ (processGroup (DB.mk [] [] [] 0) 42 (Group.mk 7 1 [CsvRow.mk "CS1" "P" 4 82 "Pass"])).terms,
      t.user_id = 42 ∧ t.semester = 1 ∧ t.year = 2024 ∧
      t.gpa = specTermGpa ((Group.mk 7 1 [CsvRow.mk "CS1" "P" 4 82 "Pass"]).rows.map (·.Total_marks)) :=
  ⟨rfl, import_term_gpa_formula.2.1 (DB.mk [] [] [] 0) 42
    (Group.mk 7 1 [CsvRow.mk "CS1" "P" 4 82 "Pass"]) rfl⟩

/-- C5: the trend label of both endpoints is the spec's comparison of
the mean GPA of the last two terms against the mean of the first two
with the ±0.3 margin — "improving" above, "declining" below, else
"stable".  The GPA-trend endpoint applies it to the terms ordered by
(year, semester); the summary applies it to the query's row order. -/
theorem gpa_trend_label_formula :
    (∀ terms : List Term, trendOf terms = specTrendLabel (terms.map (·.gpa))) ∧
    (∀ (db : AnalyticsDB) (sid : Nat) (st : Profile) (r : GPATrendRes),
        db.profiles.find? (fun p => p.id == sid) = some st →
        getGpaTrend db sid = some r →
        r.trend = specTrendLabel ((sortLe termLe (userTerms db st.user_id)).map (·.gpa))) ∧
    (∀ (db : AnalyticsDB) (sid : Nat) (st : Profile) (s : SummaryRes),
        db.profiles.find? (fun p => p.id == sid) = some st →
        getSummary db sid = some s →
        s.gpa_trend = specTrendLabel ((userTerms db st.user_id).map (·.gpa))) := by
  refine ⟨trendOf_eq_spec, ?_, ?_⟩
  · intro db sid st r hfind hres
    simp only [getGpaTrend, hfind] at hres
    by_cases hemp : (sortLe termLe (userTerms db st.user_id)).isEmpty
    · rw [if_pos hemp] at hres
      have hnil : sortLe termLe (userTerms db st.user_id) = [] :=
        List.isEmpty_iff.mp hemp
      simp only [Option.some.injEq] at hres
      subst hres
      simp [hnil, specTrendLabel]
    · rw [if_neg hemp] at hres
      simp only [Option.some.injEq] at hres
      subst hres
      exact trendOf_eq_spec _
  · intro db sid st s hfind hres
    simp only [getSummary, hfind] at hres
    by_cases hemp : (userTerms db st.user_id).isEmpty
    · rw [if_pos hemp] at hres
      have hnil : userTerms db st.user_id = [] := List.isEmpty_iff.mp hemp
      simp only [Option.some.injEq] at hres
      subst hres
      simp [hnil, specTrendLabel]
    · rw [if_neg hemp] at hres
      simp only [Option.some.injEq] at hres
      subst hres
      exact trendOf_eq_spec _

set_option maxRecDepth 100000 in
/-- C5 witness: instantiation on a two-student database where the
student has three terms with GPAs 5, 6, 9 (an improving trend). -/
theorem gpa_trend_label_formula_witness :
    (AnalyticsDB.mk [Profile.mk 1 10 "A" "CSE" 1] [Term.mk 0 10 1 2024 5, Term.mk 1 10 2 2024 6, Term.mk 2 10 3 2024 9] []).profiles.find? (fun p => p.id == 1) = some (Profile.mk 1 10 "A" "CSE" 1) ∧
    getGpaTrend (AnalyticsDB.mk [Profile.mk 1 10 "A" "CSE" 1] [Term.mk 0 10 1 2024 5, Term.mk 1 10 2 2024 6, Term.mk 2 10 3 2024 9] []) 1 =
      some (GPATrendRes.mk [(1, 2024, 5, 0), (2, 2024, 6, 1), (3, 2024, 9, 2)] (20/3) "improving") ∧
    (GPATrendRes.mk [(1, 2024, 5, 0), (2, 2024, 6, 1), (3, 2024, 9, 2)] (20/3) "improving").trend =
      specTrendLabel ((sortLe termLe (userTerms (AnalyticsDB.mk [Profile.mk 1 10 "A" "CSE" 1] [Term.mk 0 10 1 2024 5, Term.mk 1 10 2 2024 6, Term.mk 2 10 3 2024 9] []) 10)).map (·.gpa)) :=
  ⟨by with_unfolding_all decide, by with_unfolding_all decide,
    gpa_trend_label_formula.2.1 _ 1 (Profile.mk 1 10 "A" "CSE" 1) _
      (by with_unfolding_all decide) (by with_unfolding_all decide)⟩

/-- Fixture: a student (profile 1, user 10) with two terms of GPAs 1 and
9, alone in the "CSE"/1 cohort. -/
def exDB9 : AnalyticsDB :=
  AnalyticsDB.mk [Profile.mk 1 10 "A" "CSE" 1]
    [Term.mk 0 10 1 2024 1, Term.mk 1 10 2 2024 9] []

/-- Fixture: a student (profile 1, user 10) with no terms at all. -/
def exDB0 : AnalyticsDB :=
  AnalyticsDB.mk [Profile.mk 1 10 "A" "CSE" 1] [] []

/-- Fixture: student 1 (user 10) has a single term with GPA 0; student 2
(user 20) is in the same "CSE"/1 cohort with a term of GPA 5. -/
def cexDB : AnalyticsDB :=
  AnalyticsDB.mk [Profile.mk 1 10 "A" "CSE" 1, Profile.mk 2 20 "B" "CSE" 1]
    [Term.mk 0 10 1 2024 0, Term.mk 1 20 1 2024 5] []

/-- Fixture: student 1 (user 10) has one term of GPA 8; student 2
(user 20) shares the "CSE"/1 cohort with one term of GPA 6. -/
def exDB2 : AnalyticsDB :=
  AnalyticsDB.mk [Profile.mk 1 10 "A" "CSE" 1, Profile.mk 2 20 "B" "CSE" 1]
    [Term.mk 0 10 1 2024 8, Term.mk 1 20 1 2024 6] []

/-- C9: a student with exactly one or exactly two academic terms always
gets the trend "stable" from both endpoints, whatever the GPA values:
with two terms the last-two and first-two windows coincide. -/
theorem trend_stable_one_or_two_terms :
    (∀ terms : List Term, terms.length = 1 ∨ terms.length = 2 → trendOf terms = "stable") ∧
    (∀ (db : AnalyticsDB) (sid : Nat) (st : Profile) (r : GPATrendRes),
        db.profiles.find? (fun p => p.id == sid) = some st →
        getGpaTrend db sid = some r →
        ((userTerms db st.user_id).length = 1 ∨ (userTerms db st.user_id).length = 2) →
        r.trend = "stable") ∧
    (∀ (db : AnalyticsDB) (sid : Nat) (st : Profile) (s : SummaryRes),
        db.profiles.find? (fun p => p.id == sid) = some st →
        getSummary db sid = some s →
        ((userTerms db st.user_id).length = 1 ∨ (userTerms db st.user_id).length = 2) →
        s.gpa_trend = "stable") := by
  refine ⟨trendOf_short, ?_, ?_⟩
  · intro db sid st r hfind hres hlen
    have hlen' : (sortLe termLe (userTerms db st.user_id)).length = 1 ∨
        (sortLe termLe (userTerms db st.user_id)).length = 2 := by
      rw [sortLe_length]; exact hlen
    have hne : ¬ (sortLe termLe (userTerms db st.user_id)).isEmpty = true := by
      intro h
      rw [List.isEmpty_iff.mp h] at hlen'
      simp at hlen'
    simp only [getGpaTrend, hfind] at hres
    rw [if_neg hne] at hres
    simp only [Option.some.injEq] at hres
    subst hres
    exact trendOf_short _ hlen'
  · intro db sid st s hfind hres hlen
    have hne : ¬ (userTerms db st.user_id).isEmpty = true := by
      intro h
      rw [List.isEmpty_iff.mp h] at hlen
      simp at hlen
    simp only [getSummary, hfind] at hres
    rw [if_neg hne] at hres
    simp only [Option.some.injEq] at hres
    subst hres
    exact trendOf_short _ hlen

set_option maxRecDepth 100000 in
/-- C9 witness: two terms with GPAs 1 and 9 (a jump of 8) still yield
"stable" from the summary endpoint. -/
theorem trend_stable_one_or_two_terms_witness :
    getSummary exDB9 1 = some (SummaryRes.mk 5 0 0 "stable" 0) ∧
    (SummaryRes.mk 5 0 0 "stable" 0).gpa_trend = "stable" :=
  ⟨by with_unfolding_all decide,
    trend_stable_one_or_two_terms.2.2 exDB9 1 (Profile.mk 1 10 "A" "CSE" 1)
      (SummaryRes.mk 5 0 0 "stable" 0) (by with_unfolding_all decide)
      (by with_unfolding_all decide) (by with_unfolding_all decide)⟩

/-- C6: a student that exists but has zero academic terms receives the
defensive zero/empty results — empty data points, GPA 0.0, trend
"stable", percentile 50.0 — from the GPA-trend and summary endpoints,
not an error. -/
theorem empty_terms_default_results :
    ∀ (db : AnalyticsDB) (sid : Nat) (st : Profile),
      db.profiles.find? (fun p => p.id == sid) = some st →
      userTerms db st.user_id = [] →
      getGpaTrend db sid = some (GPATrendRes.mk [] 0 "stable") ∧
      getSummary db sid = some (SummaryRes.mk 0 0 0 "stable" 50) := by
  intro db sid st hfind hterms
  constructor
  · simp [getGpaTrend, hfind, hterms, sortLe]
  · simp [getSummary, hfind, hterms]

/-- C6 witness: instantiation on a database whose only student has no
terms. -/
theorem empty_terms_default_results_witness :
    getGpaTrend exDB0 1 = some (GPATrendRes.mk [] 0 "stable") ∧
    getSummary exDB0 1 = some (SummaryRes.mk 0 0 0 "stable" 50) :=
  empty_terms_default_results exDB0 1 (Profile.mk 1 10 "A" "CSE" 1)
    (by with_unfolding_all decide) (by with_unfolding_all decide)

/-- Helper: the percentile value is always within [0, 100]. -/
theorem percentileOf_bounds (cg : List ℚ) (overall : ℚ) :
    0 ≤ percentileOf cg overall ∧ percentileOf cg overall ≤ 100 := by
  unfold percentileOf
  split_ifs with h
  · obtain ⟨hne, _⟩ := h
    have hlen0 : cg.length ≠ 0 := by simpa using hne
    have hlen : (0 : ℚ) < cg.length := by exact_mod_cast Nat.pos_of_ne_zero hlen0
    constructor
    · have h0 : (0 : ℚ) ≤ ((cg.filter (fun g => g < overall)).length : ℚ) / cg.length :=
        div_nonneg (by positivity) (le_of_lt hlen)
      linarith
    · have hcount : ((cg.filter (fun g => g < overall)).length : ℚ) ≤ cg.length := by
        exact_mod_cast List.length_filter_le _ cg
      have h1 : ((cg.filter (fun g => g < overall)).length : ℚ) / cg.length ≤ 1 :=
        (div_le_one hlen).mpr hcount
      linarith
  · norm_num

/-- C2 (amended): the summary's percentile is the strictly-lower
fraction of the cohort's mean GPAs scaled to 0–100 whenever the cohort
has GPA data *and the student's own mean GPA is positive*; it is always
within [0, 100]; and it is 50.0 when the cohort has no GPA data *or the
student's mean GPA is not positive*.  The endpoint feeds the cohort's
mean-GPA list and the student's mean GPA into `percentileOf`. -/
theorem summary_percentile_amended :
    (∀ (db : AnalyticsDB) (sid : Nat) (s : SummaryRes),
        getSummary db sid = some s →
        0 ≤ s.performance_percentile ∧ s.performance_percentile ≤ 100) ∧
    (∀ (cg : List ℚ) (overall : ℚ), cg ≠ [] → 0 < overall →
        percentileOf cg overall =
          ((cg.filter (fun g => g < overall)).length : ℚ) / cg.length * 100) ∧
    (∀ (cg : List ℚ) (overall : ℚ), cg = [] ∨ overall ≤ 0 →
        percentileOf cg overall = 50) ∧
    (∀ (db : AnalyticsDB) (sid : Nat) (st : Profile) (s : SummaryRes),
        db.profiles.find? (fun p => p.id == sid) = some st →
        getSummary db sid = some s →
        userTerms db st.user_id ≠ [] →
        s.performance_percentile =
          percentileOf (memberGpas db (cohortOf db st.branch st.semester))
            (meanGpa (userTerms db st.user_id))) := by
  refine ⟨?_, ?_, ?_, ?_⟩
  · intro db sid s hres
    cases hfind : db.profiles.find? (fun p => p.id == sid) with
    | none => simp [getSummary, hfind] at hres
    | some st =>
        simp only [getSummary, hfind] at hres
        by_cases hemp : (userTerms db st.user_id).isEmpty
        · rw [if_pos hemp] at hres
          simp only [Option.some.injEq] at hres
          subst hres
          norm_num
        · rw [if_neg hemp] at hres
          simp only [Option.some.injEq] at hres
          subst hres
          exact percentileOf_bounds _ _
  · intro cg overall hne hpos
    simp [percentileOf, hne, hpos]
  · intro cg overall h
    rcases h with rfl | h
    · simp [percentileOf]
    · have : ¬ (0 : ℚ) < overall := not_lt.mpr h
      simp [percentileOf, this]
  · intro db sid st s hfind hres hterms
    have hne : ¬ (userTerms db st.user_id).isEmpty = true := by
      simpa [List.isEmpty_iff] using hterms
    simp only [getSummary, hfind] at hres
    rw [if_neg hne] at hres
    simp only [Option.some.injEq] at hres
    subst hres
    rfl

set_option maxRecDepth 100000 in
/-- C2 counterexample: in `cexDB` student 1 has mean GPA 0 while the
cohort's GPA list is [0, 5]; no cohort member is strictly below 0, so
the claim's fraction-scaled percentile would be 0, but the endpoint
returns 50. -/
theorem summary_percentile_counterexample :
    getSummary cexDB 1 = some (SummaryRes.mk 0 0 0 "stable" 50) ∧
    memberGpas cexDB (cohortOf cexDB "CSE" 1) ≠ [] ∧
    (50 : ℚ) ≠
      (((memberGpas cexDB (cohortOf cexDB "CSE" 1)).filter (fun g => g < 0)).length : ℚ) /
        (memberGpas cexDB (cohortOf cexDB "CSE" 1)).length * 100 := by
  refine ⟨by with_unfolding_all decide, by with_unfolding_all decide,
    by with_unfolding_all decide⟩

set_option maxRecDepth 100000 in
/-- C2 witness: in `exDB2` student 1 (mean GPA 8, positive) gets
percentile 50 = 1/2 · 100, within bounds. -/
theorem summary_percentile_amended_witness :
    getSummary exDB2 1 = some (SummaryRes.mk 8 0 0 "stable" 50) ∧
    (0 ≤ (SummaryRes.mk 8 0 0 "stable" 50).performance_percentile ∧
      (SummaryRes.mk 8 0 0 "stable" 50).performance_percentile ≤ 100) ∧
    percentileOf [8, 6] 8 = (([8, 6].filter (fun g : ℚ => g < 8)).length : ℚ) / 2 * 100 ∧
    percentileOf [] 3 = 50 :=
  ⟨by with_unfolding_all decide,
    summary_percentile_amended.1 exDB2 1 (SummaryRes.mk 8 0 0 "stable" 50)
      (by with_unfolding_all decide),
    summary_percentile_amended.2.1 [8, 6] 8 (by simp) (by norm_num),
    summary_percentile_amended.2.2.1 [] 3 (Or.inl rfl)⟩

/-- C10: a student with at least one term and positive mean GPA always
gets a percentile strictly below 100: the student's own mean GPA sits in
the cohort list and is not strictly lower than itself. -/
theorem summary_percentile_lt_100 :
    ∀ (db : AnalyticsDB) (sid : Nat) (st : Profile) (s : SummaryRes),
      db.profiles.find? (fun p => p.id == sid) = some st →
      getSummary db sid = some s →
      userTerms db st.user_id ≠ [] →
      0 < meanGpa (userTerms db st.user_id) →
      s.performance_percentile < 100 := by
  intro db sid st s hfind hres hterms hpos
  have hmem_st : st ∈ db.profiles := List.mem_of_find?_eq_some hfind
  have hcoh : st ∈ cohortOf db st.branch st.semester := by
    refine List.mem_filter.mpr ⟨hmem_st, ?_⟩
    simp
  have hmem : meanGpa (userTerms db st.user_id) ∈
      memberGpas db (cohortOf db st.branch st.semester) := by
    refine List.mem_filterMap.mpr ⟨st, hcoh, ?_⟩
    simp [List.isEmpty_iff, hterms]
  have hne : ¬ (userTerms db st.user_id).isEmpty = true := by
    simpa [List.isEmpty_iff] using hterms
  simp only [getSummary, hfind] at hres
  rw [if_neg hne] at hres
  simp only [Option.some.injEq] at hres
  subst hres
  show percentileOf _ _ < 100
  rw [percentileOf, if_pos ⟨List.ne_nil_of_mem hmem, hpos⟩]
  set cg := memberGpas db (cohortOf db st.branch st.semester) with hcg
  have hcount : (cg.filter (fun g => g < meanGpa (userTerms db st.user_id))).length <
      cg.length := by
    refine List.length_filter_lt_length_iff_exists.mpr
      ⟨meanGpa (userTerms db st.user_id), hmem, ?_⟩
    simp
  have hlen : (0 : ℚ) < cg.length := by
    have : cg.length ≠ 0 := by
      intro h0
      rw [List.length_eq_zero] at h0
      exact List.ne_nil_of_mem hmem h0
    exact_mod_cast Nat.pos_of_ne_zero this
  have h1 : ((cg.filter (fun g => g < meanGpa (userTerms db st.user_id))).length : ℚ) /
      cg.length < 1 := by
    refine (div_lt_one hlen).mpr ?_
    exact_mod_cast hcount
  linarith

set_option maxRecDepth 100000 in
/-- C10 witness: in `exDB2` student 1 has mean GPA 8 > 0 and receives
percentile 50 < 100. -/
theorem summary_percentile_lt_100_witness :
    getSummary exDB2 1 = some (SummaryRes.mk 8 0 0 "stable" 50) ∧
    (SummaryRes.mk 8 0 0 "stable" 50).performance_percentile < 100 :=
  ⟨by with_unfolding_all decide,
    summary_percentile_lt_100 exDB2 1 (Profile.mk 1 10 "A" "CSE" 1)
      (SummaryRes.mk 8 0 0 "stable" 50) (by with_unfolding_all decide)
      (by with_unfolding_all decide) (by with_unfolding_all decide)
      (by with_unfolding_all decide)⟩

/-- Helper: every rational falls in exactly one of the five fixed GPA
buckets, so the bucket counts sum to the list's length. -/
theorem bucket_partition (l : List ℚ) :
    (l.filter (fun g => 9 ≤ g)).length + (l.filter (fun g => 8 ≤ g ∧ g < 9)).length +
      (l.filter (fun g => 7 ≤ g ∧ g < 8)).length + (l.filter (fun g => 6 ≤ g ∧ g < 7)).length +
      (l.filter (fun g => g < 6)).length = l.length := by
  induction l with
  | nil => rfl
  | cons a t ih =>
      simp only [List.filter_cons, decide_eq_true_eq]
      rcases le_or_lt 9 a with h9 | h9
      · rw [if_pos h9, if_neg (fun hc => by linarith [hc.2]),
          if_neg (fun hc => by linarith [hc.2]), if_neg (fun hc => by linarith [hc.2]),
          if_neg (fun hc => by linarith)]
        simp only [List.length_cons]
        omega
      · rcases le_or_lt 8 a with h8 | h8
        · rw [if_neg (fun hc => by linarith), if_pos ⟨h8, h9⟩,
            if_neg (fun hc => by linarith [hc.2]), if_neg (fun hc => by linarith [hc.2]),
            if_neg (fun hc => by linarith)]
          simp only [List.length_cons]
          omega
        · rcases le_or_lt 7 a with h7 | h7
          · rw [if_neg (fun hc => by linarith), if_neg (fun hc => by linarith [hc.1]),
              if_pos ⟨h7, h8⟩, if_neg (fun hc => by linarith [hc.2]),
              if_neg (fun hc => by linarith)]
            simp only [List.length_cons]
            omega
          · rcases le_or_lt 6 a with h6 | h6
            · rw [if_neg (fun hc => by linarith), if_neg (fun hc => by linarith [hc.1]),
                if_neg (fun hc => by linarith [hc.1]), if_pos ⟨h6, h7⟩,
                if_neg (fun hc => by linarith)]
              simp only [List.length_cons]
              omega
            · rw [if_neg (fun hc => by linarith), if_neg (fun hc => by linarith [hc.1]),
                if_neg (fun hc => by linarith [hc.1]), if_neg (fun hc => by linarith [hc.1]),
                if_pos h6]
              simp only [List.length_cons]
              omega

/-- C8: for a non-empty cohort with GPA data, the cohort-statistics
endpoint returns the mean of the members' mean GPAs, the middle element
of their sorted list as median, their true minimum and maximum, and a
five-bucket histogram whose counts sum to the number of members with
GPA data. -/
theorem cohort_stats_correct :
    ∀ (db : AnalyticsDB) (branch : String) (semester : Int) (r : CohortStatsRes),
      getCohortStats db branch semester = some r →
      r.average_gpa = (memberGpas db (cohortOf db branch semester)).sum /
        (memberGpas db (cohortOf db branch semester)).length ∧
      r.median_gpa = (sortLe (fun a b => a ≤ b) (memberGpas db (cohortOf db branch semester))).getD
        ((memberGpas db (cohortOf db branch semester)).length / 2) 0 ∧
      r.median_gpa ∈ memberGpas db (cohortOf db branch semester) ∧
      r.top_gpa ∈ memberGpas db (cohortOf db branch semester) ∧
      (∀ x ∈ memberGpas db (cohortOf db branch semester), x ≤ r.top_gpa) ∧
      r.bottom_gpa ∈ memberGpas db (cohortOf db branch semester) ∧
      (∀ x ∈ memberGpas db (cohortOf db branch semester), r.bottom_gpa ≤ x) ∧
      r.dist_9_10 + r.dist_8_89 + r.dist_7_79 + r.dist_6_69 + r.dist_below_6 =
        (memberGpas db (cohortOf db branch semester)).length := by
  intro db branch semester r hres
  simp only [getCohortStats] at hres
  by_cases h1 : (cohortOf db branch semester).isEmpty
  · rw [if_pos h1] at hres
    exact absurd hres (by simp)
  · rw [if_neg h1] at hres
    by_cases h2 : (memberGpas db (cohortOf db branch semester)).isEmpty
    · rw [if_pos h2] at hres
      exact absurd hres (by simp)
    · rw [if_neg h2] at hres
      simp only [Option.some.injEq] at hres
      subst hres
      have hne : memberGpas db (cohortOf db branch semester) ≠ [] := by
        simpa [List.isEmpty_iff] using h2
      have hlen0 : 0 < (memberGpas db (cohortOf db branch semester)).length :=
        List.length_pos.mpr hne
      have hslen : (sortLe (fun a b => a ≤ b) (memberGpas db (cohortOf db branch semester))).length =
          (memberGpas db (cohortOf db branch semester)).length :=
        sortLe_length _ _
      have hidx : (memberGpas db (cohortOf db branch semester)).length / 2 <
          (sortLe (fun a b => a ≤ b) (memberGpas db (cohortOf db branch semester))).length := by
        rw [hslen]
        exact Nat.div_lt_self hlen0 (by norm_num)
      have hmed : (sortLe (fun a b => a ≤ b) (memberGpas db (cohortOf db branch semester))).getD
          ((sortLe (fun a b => a ≤ b) (memberGpas db (cohortOf db branch semester))).length / 2) 0 ∈
          memberGpas db (cohortOf db branch semester) := by
        rw [hslen, List.getD_eq_getElem _ _ hidx]
        exact ((sortLe_perm _ _).mem_iff).mp (List.getElem_mem _)
      exact ⟨rfl, by rw [hslen], hmed, (listMax_spec _ hne).1, (listMax_spec _ hne).2,
        (listMin_spec _ hne).1, (listMin_spec _ hne).2, bucket_partition _⟩

set_option maxRecDepth 100000 in
/-- C8 witness: the "CSE"/1 cohort of `exDB2` has member GPAs [8, 6];
the endpoint reports mean 7, median 8, max 8, min 6 and histogram
0/1/0/1/0. -/
theorem cohort_stats_correct_witness :
    getCohortStats exDB2 "CSE" 1 = some (CohortStatsRes.mk 2 7 8 8 6 0 1 0 1 0) ∧
    (CohortStatsRes.mk 2 7 8 8 6 0 1 0 1 0).median_gpa ∈
      memberGpas exDB2 (cohortOf exDB2 "CSE" 1) ∧
    (CohortStatsRes.mk 2 7 8 8 6 0 1 0 1 0).dist_9_10 +
      (CohortStatsRes.mk 2 7 8 8 6 0 1 0 1 0).dist_8_89 +
      (CohortStatsRes.mk 2 7 8 8 6 0 1 0 1 0).dist_7_79 +
      (CohortStatsRes.mk 2 7 8 8 6 0 1 0 1 0).dist_6_69 +
      (CohortStatsRes.mk 2 7 8 8 6 0 1 0 1 0).dist_below_6 =
      (memberGpas exDB2 (cohortOf exDB2 "CSE" 1)).length :=
  ⟨by with_unfolding_all decide,
    (cohort_stats_correct exDB2 "CSE" 1 (CohortStatsRes.mk 2 7 8 8 6 0 1 0 1 0)
      (by with_unfolding_all decide)).2.2.1,
    (cohort_stats_correct exDB2 "CSE" 1 (CohortStatsRes.mk 2 7 8 8 6 0 1 0 1 0)
      (by with_unfolding_all decide)).2.2.2.2.2.2.2⟩

theorem failedAttempts_append (l1 l2 : List ℚ) (u : UserState) :
    failedAttempts (l1 ++ l2) u = failedAttempts l2 (failedAttempts l1 u) := by
  induction l1 generalizing u with
  | nil => rfl
  | cons t ts ih => simp [failedAttempts, ih]

/-- Helper: as long as the running failure count stays below 5, failed
attempts just increment the counter and never set `locked_until`. -/
theorem failedAttempts_under_five :
    ∀ (ts : List ℚ) (u : UserState),
      u.locked_until = none → u.failed_login_attempts + ts.length < 5 →
      (failedAttempts ts u).locked_until = none ∧
      (failedAttempts ts u).failed_login_attempts = u.failed_login_attempts + ts.length := by
  intro ts
  induction ts with
  | nil => intro u h1 _; exact ⟨h1, rfl⟩
  | cons t ts ih =>
      intro u h1 h2
      have hlock : isLocked u t = false := by simp [isLocked, h1]
      have hlt : ¬ 5 ≤ u.failed_login_attempts + 1 := by
        simp only [List.length_cons] at h2
        omega
      have hstep : (loginStep u false t).1 =
          { u with failed_login_attempts := u.failed_login_attempts + 1 } := by
        simp [loginStep, hlock, recordFailedLogin, hlt]
      rw [show failedAttempts (t :: ts) u = failedAttempts ts (loginStep u false t).1 from rfl,
        hstep]
      have hres := ih { u with failed_login_attempts := u.failed_login_attempts + 1 }
        h1 (by simp only [List.length_cons] at h2; simpa using (by omega : u.failed_login_attempts + 1 + ts.length < 5))
      refine ⟨hres.1, ?_⟩
      rw [hres.2]
      simp only [List.length_cons]
      omega

/-- C3: starting from a fresh account, fewer than 5 consecutive failed
logins never lock it; the 5th consecutive failure (at time `t`) sets the
counter to 5 and locks until `t + 30` minutes, during which the account
reads as locked; and while locked, a login attempt — even with the
correct password — is rejected before any password check and yields no
token. -/
theorem account_lockout :
    (∀ ts : List ℚ, ts.length < 5 → ∀ now : ℚ,
        isLocked (failedAttempts ts freshUser) now = false) ∧
    (∀ (ts : List ℚ) (t : ℚ), ts.length = 4 →
        (failedAttempts (ts ++ [t]) freshUser).failed_login_attempts = 5 ∧
        (failedAttempts (ts ++ [t]) freshUser).locked_until = some (t + 30) ∧
        ∀ now : ℚ, now < t + 30 → isLocked (failedAttempts (ts ++ [t]) freshUser) now = true) ∧
    (∀ (u : UserState) (T : ℚ) (pw : Bool) (now : ℚ),
        u.locked_until = some T → now < T →
        (loginStep u pw now).2 ≠ LoginResult.token) := by
  refine ⟨?_, ?_, ?_⟩
  · intro ts hlen now
    have h := failedAttempts_under_five ts freshUser rfl (by simpa [freshUser] using hlen)
    simp [isLocked, h.1]
  · intro ts t hlen
    have h4 := failedAttempts_under_five ts freshUser rfl (by simp [freshUser, hlen])
    rw [failedAttempts_append]
    set u4 := failedAttempts ts freshUser with hu4
    have hlock : isLocked u4 t = false := by simp [isLocked, h4.1]
    have hcount : u4.failed_login_attempts = 4 := by
      rw [h4.2]; simp [freshUser, hlen]
    have hge : 5 ≤ u4.failed_login_attempts + 1 := by omega
    have hstep : failedAttempts [t] u4 =
        { failed_login_attempts := u4.failed_login_attempts + 1,
          locked_until := some (t + 30) } := by
      simp [failedAttempts, loginStep, hlock, recordFailedLogin, hge]
    rw [hstep]
    refine ⟨by simp [hcount], rfl, ?_⟩
    intro now hnow
    simp [isLocked, hnow]
  · intro u T pw now hT hnow
    have hlock : isLocked u now = true := by simp [isLocked, hT, hnow]
    simp [loginStep, hlock]

/-- C3 witness: four failures at times 0–3 leave the account unlocked at
any time; a 5th at time 4 locks until minute 34; at minute 10 even a
correct password yields no token. -/
theorem account_lockout_witness :
    isLocked (failedAttempts [0, 1, 2, 3] freshUser) 100 = false ∧
    (failedAttempts ([0, 1, 2, 3] ++ [4]) freshUser).locked_until = some (4 + 30) ∧
    isLocked (failedAttempts ([0, 1, 2, 3] ++ [4]) freshUser) 10 = true ∧
    (loginStep (UserState.mk 5 (some 34)) true 10).2 ≠ LoginResult.token :=
  ⟨account_lockout.1 [0, 1, 2, 3] (by norm_num) 100,
    (account_lockout.2.1 [0, 1, 2, 3] 4 rfl).2.1,
    (account_lockout.2.1 [0, 1, 2, 3] 4 rfl).2.2 10 (by norm_num),
    account_lockout.2.2 (UserState.mk 5 (some 34)) 34 true 10 rfl (by norm_num)⟩

/-! ## Import idempotence and uniqueness infrastructure -/

/-- The term a group creates when none exists for its key. -/
def newTermOf (db : DB) (uid : Nat) (g : Group) : Term :=
  { id := db.nextId, user_id := uid, semester := g.semester, year := 2024,
    gpa := termGpa (g.rows.map (·.Total_marks)) }

theorem processGroup_eq_found (db : DB) (uid : Nat) (g : Group) (t : Term)
    (h : findTerm db.terms uid g.semester 2024 = some t) :
    processGroup db uid g =
      { db with pending := db.pending ++ newSubs db.subjects t.id g.rows } := by
  simp only [processGroup, h]
  exact addSubjects_eq db t.id g.rows

theorem processGroup_eq_new (db : DB) (uid : Nat) (g : Group)
    (h : findTerm db.terms uid g.semester 2024 = none) :
    processGroup db uid g =
      { terms := db.terms ++ [newTermOf db uid g], subjects := db.subjects,
        pending := db.pending ++ newSubs db.subjects db.nextId g.rows,
        nextId := db.nextId + 1 } := by
  simp only [processGroup, h]
  rw [addSubjects_eq]
  rfl

/-- `db2` extends `db`: terms are only appended, and every subject row
that is visible-or-pending stays visible-or-pending. -/
def dbExtends (db db2 : DB) : Prop :=
  (∃ l, db2.terms = db.terms ++ l) ∧
  (∀ s ∈ db.subjects ++ db.pending, s ∈ db2.subjects ++ db2.pending)

theorem dbExtends_refl (db : DB) : dbExtends db db :=
  ⟨⟨[], by simp⟩, fun _ hs => hs⟩

theorem dbExtends_trans {a b c : DB} (h1 : dbExtends a b) (h2 : dbExtends b c) :
    dbExtends a c := by
  obtain ⟨⟨l1, hl1⟩, hm1⟩ := h1
  obtain ⟨⟨l2, hl2⟩, hm2⟩ := h2
  exact ⟨⟨l1 ++ l2, by rw [hl2, hl1, List.append_assoc]⟩, fun s hs => hm2 s (hm1 s hs)⟩

theorem processGroup_extends (db : DB) (uid : Nat) (g : Group) :
    dbExtends db (processGroup db uid g) := by
  cases h : findTerm db.terms uid g.semester 2024 with
  | some t =>
      rw [processGroup_eq_found db uid g t h]
      refine ⟨⟨[], by simp⟩, fun s hs => ?_⟩
      simp only [List.mem_append] at hs ⊢
      tauto
  | none =>
      rw [processGroup_eq_new db uid g h]
      refine ⟨⟨[newTermOf db uid g], rfl⟩, fun s hs => ?_⟩
      simp only [List.mem_append] at hs ⊢
      tauto

theorem commitDB_extends (db : DB) : dbExtends db (commitDB db) := by
  refine ⟨⟨[], by simp [commitDB]⟩, fun s hs => ?_⟩
  simp only [commitDB, List.mem_append] at hs ⊢
  tauto

theorem importGroups_extends (m : Nat → Option Nat) :
    ∀ (gs : List Group) (c : Nat) (db : DB), dbExtends db (importGroups m gs c db) := by
  intro gs
  induction gs with
  | nil => intro c db; exact dbExtends_refl db
  | cons g gs ih =>
      intro c db
      simp only [importGroups]
      cases hm : m g.student_id with
      | none => exact ih _ _
      | some uid =>
          refine dbExtends_trans (dbExtends_trans (processGroup_extends db uid g) ?_) (ih _ _)
          split
          · exact commitDB_extends _
          · exact dbExtends_refl _

/-- A group is "done" in a database state: if its student maps to a
user, the query for `(user, semester, 2024)` finds a term, and every
CSV row of the group has a visible-or-pending subject row for that term
and subject code. -/
def groupDone (m : Nat → Option Nat) (db : DB) (g : Group) : Prop :=
  ∀ uid, m g.student_id = some uid →
    ∃ t, findTerm db.terms uid g.semester 2024 = some t ∧
      ∀ r ∈ g.rows, ∃ s ∈ db.subjects ++ db.pending,
        s.term_id = t.id ∧ s.subject_code = r.subject_code

theorem groupDone_mono {m : Nat → Option Nat} {db db2 : DB} {g : Group}
    (hext : dbExtends db db2) (h : groupDone m db g) : groupDone m db2 g := by
  intro uid hm
  obtain ⟨t, ht, hsub⟩ := h uid hm
  obtain ⟨⟨l, hl⟩, hmem⟩ := hext
  refine ⟨t, ?_, fun r hr => ?_⟩
  · unfold findTerm at ht ⊢
    rw [hl, List.find?_append, ht]
    rfl
  · obtain ⟨s, hs, hprop⟩ := hsub r hr
    exact ⟨s, hmem s hs, hprop⟩

theorem processGroup_done (m : Nat → Option Nat) (db : DB) (uid : Nat) (g : Group)
    (hm : m g.student_id = some uid) : groupDone m (processGroup db uid g) g := by
  intro uid' hm'
  rw [hm, Option.some.injEq] at hm'
  subst hm'
  cases hf : findTerm db.terms uid g.semester 2024 with
  | some t =>
      rw [processGroup_eq_found db uid g t hf]
      refine ⟨t, hf, fun r hr => ?_⟩
      cases hfs : findSubject db.subjects t.id r.subject_code with
      | some s =>
          have hmem := List.mem_of_find?_eq_some hfs
          have hp := List.find?_some hfs
          simp only [Bool.and_eq_true, beq_iff_eq] at hp
          exact ⟨s, List.mem_append.mpr (Or.inl hmem), hp.1, hp.2⟩
      | none =>
          refine ⟨mkSubject t.id r, ?_, rfl, rfl⟩
          refine List.mem_append.mpr (Or.inr (List.mem_append.mpr (Or.inr ?_)))
          exact List.mem_map.mpr ⟨r, List.mem_filter.mpr ⟨hr, by simp [hfs]⟩, rfl⟩
  | none =>
      rw [processGroup_eq_new db uid g hf]
      refine ⟨newTermOf db uid g, ?_, fun r hr => ?_⟩
      · unfold findTerm at hf ⊢
        rw [List.find?_append, hf]
        simp [newTermOf]
      · cases hfs : findSubject db.subjects db.nextId r.subject_code with
        | some s =>
            have hmem := List.mem_of_find?_eq_some hfs
            have hp := List.find?_some hfs
            simp only [Bool.and_eq_true, beq_iff_eq] at hp
            exact ⟨s, List.mem_append.mpr (Or.inl hmem), hp.1, hp.2⟩
        | none =>
            refine ⟨mkSubject db.nextId r, ?_, rfl, rfl⟩
            refine List.mem_append.mpr (Or.inr (List.mem_append.mpr (Or.inr ?_)))
            exact List.mem_map.mpr ⟨r, List.mem_filter.mpr ⟨hr, by simp [hfs]⟩, rfl⟩

theorem importGroups_done (m : Nat → Option Nat) :
    ∀ (gs : List Group) (c : Nat) (db : DB) (g : Group),
      g ∈ gs → groupDone m (importGroups m gs c db) g := by
  intro gs
  induction gs with
  | nil => intro c db g hg; cases hg
  | cons g0 gs ih =>
      intro c db g hg
      simp only [importGroups]
      cases hm : m g0.student_id with
      | none =>
          rcases List.mem_cons.mp hg with rfl | hg'
          · intro uid hmu
            rw [hm] at hmu
            cases hmu
          · exact ih _ _ _ hg'
      | some uid =>
          rcases List.mem_cons.mp hg with rfl | hg'
          · refine groupDone_mono (importGroups_extends m gs _ _) ?_
            split
            · exact groupDone_mono (commitDB_extends _) (processGroup_done m db uid g hm)
            · exact processGroup_done m db uid g hm
          · exact ih _ _ _ hg'

theorem addSubjects_noop (db : DB) (tid : Nat) (rows : List CsvRow)
    (h : ∀ r ∈ rows, ∃ s ∈ db.subjects, s.term_id = tid ∧ s.subject_code = r.subject_code) :
    addSubjects db tid rows = db := by
  rw [addSubjects_eq]
  have hnil : newSubs db.subjects tid rows = [] := by
    unfold newSubs
    rw [List.map_eq_nil_iff, List.filter_eq_nil_iff]
    intro r hr
    obtain ⟨s, hs, h1, h2⟩ := h r hr
    have hsome : (findSubject db.subjects tid r.subject_code).isSome := by
      unfold findSubject
      rw [List.find?_isSome]
      exact ⟨s, hs, by simp [h1, h2]⟩
    simp only [Option.isNone_iff_eq_none, decide_eq_true_eq]
    intro hnone
    rw [hnone] at hsome
    cases hsome
  rw [hnil, List.append_nil]

theorem importGroups_noop (m : Nat → Option Nat) :
    ∀ (gs : List Group) (c : Nat) (db : DB),
      db.pending = [] → (∀ g ∈ gs, groupDone m db g) →
      importGroups m gs c db = db := by
  intro gs
  induction gs with
  | nil => intro c db _ _; rfl
  | cons g gs ih =>
      intro c db hp hdone
      simp only [importGroups]
      cases hm : m g.student_id with
      | none => exact ih _ db hp (fun g' hg' => hdone g' (List.mem_cons_of_mem _ hg'))
      | some uid =>
          obtain ⟨t, ht, hsubs⟩ := hdone g (List.mem_cons_self _ _) uid hm
          show importGroups m gs (c + 1)
              (if ((c + 1) % 100 == 0) = true then commitDB (processGroup db uid g)
               else processGroup db uid g) = db
          have hpg : processGroup db uid g = db := by
            rw [processGroup_eq_found db uid g t ht]
            have := addSubjects_noop db t.id g.rows (fun r hr => by
              obtain ⟨s, hs, hp1⟩ := hsubs r hr
              rw [hp, List.append_nil] at hs
              exact ⟨s, hs, hp1⟩)
            rw [addSubjects_eq] at this
            exact this
          rw [hpg, commitDB_of_pending_nil db hp, ite_self]
          exact ih _ db hp (fun g' hg' => hdone g' (List.mem_cons_of_mem _ hg'))

theorem importAcademicRecords_noop (m : Nat → Option Nat) (gs : List Group) (db : DB)
    (hp : db.pending = []) (hd : ∀ g ∈ gs, groupDone m db g) :
    importAcademicRecords m gs db = db := by
  unfold importAcademicRecords
  rw [importGroups_noop m gs 0 db hp hd]
  exact commitDB_of_pending_nil db hp

/-- C4: running the academic-records import twice on the same CSV
(same groups, same student-to-user mapping) leaves the database exactly
as after one run: every group's term already exists and every group
subject's `(term, subject_code)` is already present, so the second run
creates nothing. -/
theorem importAcademicRecords_idempotent (m : Nat → Option Nat) (gs : List Group) (db : DB) :
    importAcademicRecords m gs (importAcademicRecords m gs db) =
      importAcademicRecords m gs db := by
  refine importAcademicRecords_noop m gs _ (commitDB_pending _) ?_
  intro g hg
  exact groupDone_mono (commitDB_extends _) (importGroups_done m gs 0 db g hg)

/-- The `(user_id, semester, year)` key of the composite unique
constraint `uq_user_semester_year`. -/
def termKey (t : Term) : Nat × Int × Int := (t.user_id, t.semester, t.year)

/-- The database invariant: all terms have pairwise distinct keys. -/
def TermsUnique (terms : List Term) : Prop :=
  List.Pairwise (fun a b => termKey a ≠ termKey b) terms

theorem processGroup_unique (db : DB) (uid : Nat) (g : Group)
    (h : TermsUnique db.terms) : TermsUnique (processGroup db uid g).terms := by
  cases hf : findTerm db.terms uid g.semester 2024 with
  | some t =>
      rw [processGroup_eq_found db uid g t hf]
      exact h
  | none =>
      rw [processGroup_eq_new db uid g hf]
      refine List.pairwise_append.mpr ⟨h, List.pairwise_singleton _ _, ?_⟩
      intro a ha b hb
      simp only [List.mem_singleton] at hb
      subst hb
      have hnone := List.find?_eq_none.mp hf a ha
      intro hkey
      apply hnone
      simp only [termKey, newTermOf, Prod.mk.injEq] at hkey
      simp [hkey.1, hkey.2.1, hkey.2.2]

theorem importGroups_unique (m : Nat → Option Nat) :
    ∀ (gs : List Group) (c : Nat) (db : DB),
      TermsUnique db.terms → TermsUnique (importGroups m gs c db).terms := by
  intro gs
  induction gs with
  | nil => intro c db h; exact h
  | cons g gs ih =>
      intro c db h
      simp only [importGroups]
      cases m g.student_id with
      | none => exact ih _ db h
      | some uid =>
          refine ih _ _ ?_
          split
          · exact processGroup_unique db uid g h
          · exact processGroup_unique db uid g h

/-- C7: at most one academic term per `(user, semester, year)` in every
reachable state — the per-group step creates a term only when the
existence query returns nothing (the created term is flushed, so later
groups see it), and a whole import run preserves the pairwise
distinctness of term keys. -/
theorem import_preserves_term_uniqueness :
    (∀ (db : DB) (uid : Nat) (g : Group),
        TermsUnique db.terms → TermsUnique (processGroup db uid g).terms) ∧
    (∀ (m : Nat → Option Nat) (gs : List Group) (db : DB),
        TermsUnique db.terms → TermsUnique (importAcademicRecords m gs db).terms) := by
  refine ⟨processGroup_unique, ?_⟩
  intro m gs db h
  unfold importAcademicRecords
  show TermsUnique (importGroups m gs 0 db).terms
  exact importGroups_unique m gs 0 db h

/-- Fixture: the empty database. -/
def exDBEmpty : DB := DB.mk [] [] [] 0

/-- Fixture: a mapping sending student 7 to user 42. -/
def exUserMap : Nat → Option Nat := fun s => if s = 7 then some 42 else none

/-- Fixture: two groups of the same student and semester (as after a
duplicated CSV region), plus one unmapped student. -/
def exGroups : List Group :=
  [Group.mk 7 1 [CsvRow.mk "CS1" "Prog" 4 80 "Pass"],
   Group.mk 7 1 [CsvRow.mk "CS1" "Prog" 4 80 "Pass"],
   Group.mk 9 1 [CsvRow.mk "CS2" "Math" 4 60 "Fail"]]

/-- C7 witness: the uniqueness invariant holds on the empty database and
is preserved by importing `exGroups`. -/
theorem import_preserves_term_uniqueness_witness :
    TermsUnique exDBEmpty.terms ∧
    TermsUnique (importAcademicRecords exUserMap exGroups exDBEmpty).terms :=
  ⟨List.Pairwise.nil,
    import_preserves_term_uniqueness.2 exUserMap exGroups exDBEmpty List.Pairwise.nil⟩

end StudentTracker
